import Mathlib

/-!
Shallow embedding of the gonuts-tollgate repository pieces needed for the
claims: the NUT-11 P2PK spending-condition evaluator
(`cashu/nuts/nut11/nut11.go`), the wallet keyset registry
(`wallet/keyset.go` / `wallet/offline.go`), and the NUT-17 subscription
manager (`wallet/submanager`).

External collaborators (the btcec secp256k1 library, the SHA-256 hash, the
JSON codec and the network transport) are abstracted as parameters; every
function of the repository itself is translated statement by statement.
-/

namespace Gonuts

/-! ### Go `strconv` decimal integers

`strconv.Itoa` / `strconv.FormatInt` print a decimal integer;
`strconv.ParseInt(s, 10, bitSize)` accepts an optional sign followed by a
non-empty run of decimal digits and fails (`ErrRange`) outside the two's
complement range of `bitSize` bits.  Callers in the repository only test
`err != nil`, so both syntax and range failures are modelled as `none`. -/

def natToDigitsAux (n : Nat) (acc : List Char) : List Char :=
  let d := Char.ofNat (48 + n % 10)
  if _h : n < 10 then d :: acc
  else natToDigitsAux (n / 10) (d :: acc)
termination_by n
decreasing_by exact Nat.div_lt_self (by omega) (by omega)

def natToDecimal (n : Nat) : List Char := natToDigitsAux n []

/-- Go `strconv.Itoa` / `strconv.FormatInt` (base 10). -/
def goItoa (i : Int) : String :=
  if i < 0 then "-" ++ String.mk (natToDecimal i.natAbs)
  else String.mk (natToDecimal i.natAbs)

def digitVal (c : Char) : Option Nat :=
  if 48 ≤ c.toNat ∧ c.toNat ≤ 57 then some (c.toNat - 48) else none

def parseDigitsAux : List Char → Nat → Option Nat
  | [], acc => some acc
  | c :: cs, acc =>
    match digitVal c with
    | none => none
    | some d => parseDigitsAux cs (acc * 10 + d)

/-- A non-empty all-digit run, most significant digit first. -/
def parseDecimal (cs : List Char) : Option Nat :=
  match cs with
  | [] => none
  | _ :: _ => parseDigitsAux cs 0

def splitSign (cs : List Char) : Bool × List Char :=
  match cs with
  | [] => (false, [])
  | c :: rest =>
    if c = '-' then (true, rest)
    else if c = '+' then (false, rest)
    else (false, cs)

/-- Go `strconv.ParseInt(s, 10, bitSize)`, collapsing `ErrSyntax` and
`ErrRange` to `none` (callers only check `err != nil`). -/
def goParseInt (s : String) (bitSize : Nat) : Option Int :=
  let (neg, ds) := splitSign s.toList
  match parseDecimal ds with
  | none => none
  | some m =>
    let v : Int := if neg then -(m : Int) else (m : Int)
    if -(2 : Int) ^ (bitSize - 1) ≤ v ∧ v ≤ 2 ^ (bitSize - 1) - 1 then some v
    else none

/-! ### Association lists standing for Go maps -/

def alLookup {A : Type} (k : String) : List (String × A) → Option A
  | [] => none
  | p :: rest => if p.1 = k then some p.2 else alLookup k rest

def alErase {A : Type} (k : String) (m : List (String × A)) : List (String × A) :=
  m.filter (fun p => p.1 ≠ k)

def alInsert {A : Type} (k : String) (v : A) (m : List (String × A)) :
    List (String × A) :=
  (k, v) :: alErase k m

namespace Nut11

/-- NUT-11 error values (`nut11.go` lines 36-50); `buildErr` stands for
`cashu.BuildCashuError` with the given message. -/
inductive CashuErr where
  | invalidTag
  | tooManyTags
  | nsigsMustBePositive
  | emptyPubkeys
  | invalidWitness
  | invalidKind
  | duplicateSignatures
  | notEnoughSignatures
  | noSignatures
  | buildErr (msg : String)
deriving DecidableEq

/-- Embedding of `nut10.WellKnownSecret`: kind plus `Data = {nonce, data, tags}`.
The nonce plays no role in any claim and is omitted. -/
structure WellKnownSecret where
  kind : String
  data : String
  tags : List (List String)
deriving DecidableEq

/-- Embedding of `nut11.P2PKTags`, with the key type abstract (btcec public keys).
Field defaults are the Go zero values. -/
structure P2PKTags (PubKey : Type) where
  sigflag : String := ""
  nsigs : Int := 0
  pubkeys : List PubKey := []
  locktime : Int := 0
  refund : List PubKey := []

section P2PK

variable {PubKey : Type} [DecidableEq PubKey]

-- `ParsePublicKey` (hex decode + `btcec.ParsePubKey`) is abstracted as a
-- parameter; `none` stands for its error return.
variable (parsePubKey : String → Option PubKey)

/-- Parse the trailing entries of a `pubkeys`/`refund` tag, propagating the
first `ParsePublicKey` error (`nut11.go` lines 129-140, 149-160). -/
def parseKeyList : List String → Except CashuErr (List PubKey)
  | [] => .ok []
  | s :: rest =>
    match parsePubKey s with
    | none => .error (.buildErr ("invalid public key: " ++ s))
    | some k =>
      match parseKeyList rest with
      | .error e => .error e
      | .ok ks => .ok (k :: ks)

/-- One iteration of the `ParseP2PKTags` loop body (`nut11.go` lines 104-162):
tags of length < 2 are rejected, recognized tag types overwrite the
accumulator field, unknown tag types are skipped. -/
def p2pkApplyTag (acc : P2PKTags PubKey) (tag : List String) :
    Except CashuErr (P2PKTags PubKey) :=
  if tag.length < 2 then .error .invalidTag
  else
    let tagType := tag.headD ""
    let arg := (tag.drop 1).headD ""
    if tagType = "sigflag" then
      if arg = "SIG_INPUTS" ∨ arg = "SIG_ALL" then .ok { acc with sigflag := arg }
      else .error (.buildErr ("invalig sigflag: " ++ arg))
    else if tagType = "n_sigs" then
      match goParseInt arg 8 with
      | none => .error (.buildErr "invalig n_sigs value")
      | some nsig =>
        if nsig < 0 then .error .nsigsMustBePositive
        else .ok { acc with nsigs := nsig }
    else if tagType = "pubkeys" then
      match parseKeyList parsePubKey (tag.drop 1) with
      | .error e => .error e
      | .ok ks => .ok { acc with pubkeys := ks }
    else if tagType = "locktime" then
      match goParseInt arg 64 with
      | none => .error (.buildErr "invalid locktime")
      | some lt => .ok { acc with locktime := lt }
    else if tagType = "refund" then
      match parseKeyList parsePubKey (tag.drop 1) with
      | .error e => .error e
      | .ok ks => .ok { acc with refund := ks }
    else .ok acc

/-- Embedding of `nut11.ParseP2PKTags` (`nut11.go` lines 97-165). -/
def ParseP2PKTags (tags : List (List String)) :
    Except CashuErr (P2PKTags PubKey) :=
  if tags.length > 5 then .error .tooManyTags
  else tags.foldlM (p2pkApplyTag parsePubKey) {}

-- `hex.EncodeToString(pubkey.SerializeCompressed())` abstracted.
variable (serializeHex : PubKey → String)

/-- Embedding of `nut11.SerializeP2PKTags` (`nut11.go` lines 64-95). -/
def SerializeP2PKTags (t : P2PKTags PubKey) : List (List String) :=
  (if t.sigflag = "SIG_ALL" then [["sigflag", "SIG_ALL"]] else []) ++
  (if t.nsigs > 0 then [["n_sigs", goItoa t.nsigs]] else []) ++
  (if t.pubkeys ≠ [] then ["pubkeys" :: t.pubkeys.map serializeHex] else []) ++
  (if t.locktime > 0 then [["locktime", goItoa t.locktime]] else []) ++
  (if t.refund ≠ [] then ["refund" :: t.refund.map serializeHex] else [])

/-- The loop of `nut11.DuplicateSignatures` (`nut11.go` lines 284-294), with
the `sigs` set carried as a list. -/
def dupLoop : List String → List String → Bool
  | [], _ => false
  | s :: rest, seen => if s ∈ seen then true else dupLoop rest (s :: seen)

/-- Embedding of `nut11.DuplicateSignatures`. -/
def DuplicateSignatures (signatures : List String) : Bool :=
  dupLoop signatures []

-- The abstract hash type and verification oracle.  `verify sig h k` stands
-- for: the string `sig` hex-decodes, `schnorr.ParseSignature` succeeds on
-- it, and the resulting signature verifies over hash `h` under key `k`; a
-- string failing to parse verifies under no key, which is exactly the
-- effect of the `continue` in `HasValidSignatures`.
variable {H : Type} (verify : String → H → PubKey → Bool)

/-- Index of the first key in the list that verifies the signature. -/
def findVerifyIdx (hash : H) (sig : String) (keys : List PubKey) : Option Nat :=
  keys.findIdx? (fun k => verify sig hash k)

/-- The counting loop of `nut11.HasValidSignatures` (`nut11.go` lines
300-316): each signature is matched against the first remaining key that
verifies it; a matched key is deleted from the candidate list unless it is
the only one left. -/
def hvsLoop (hash : H) : List String → List PubKey → Nat → Nat
  | [], _, acc => acc
  | sig :: rest, keys, acc =>
    match findVerifyIdx verify hash sig keys with
    | none => hvsLoop hash rest keys acc
    | some i =>
      hvsLoop hash rest (if keys.length > 1 then keys.eraseIdx i else keys) (acc + 1)

/-- Embedding of `nut11.HasValidSignatures` (`nut11.go` lines 296-319). -/
def HasValidSignatures (hash : H) (signatures : List String) (nsigs : Int)
    (pubkeys : List PubKey) : Bool :=
  (hvsLoop verify hash signatures pubkeys 0 : Int) ≥ nsigs

/-- A `cashu.Proof` restricted to the fields `VerifyP2PKLockedProof` reads:
the raw secret string and the signature list obtained by
`json.Unmarshal`-ing the witness (a missing or malformed witness leaves the
Go zero value, i.e. the empty list). -/
structure Proof where
  secret : String
  witnessSigs : List String
deriving DecidableEq

variable (sha256 : String → H)

/-- The non-expired branch of `VerifyP2PKLockedProof` (`nut11.go` lines
374-402): parse the data key, apply the `n_sigs`/`pubkeys` rules, reject
empty witnesses and duplicate signatures, then count valid signatures. -/
def verifyPrimary (proof : Proof) (secret : WellKnownSecret)
    (t : P2PKTags PubKey) : Except CashuErr Unit :=
  match parsePubKey secret.data with
  | none => .error (.buildErr ("invalid public key: " ++ secret.data))
  | some pk =>
    if t.nsigs > 0 ∧ t.pubkeys = [] then .error .emptyPubkeys
    else
      let required : Int := if t.nsigs > 0 then t.nsigs else 1
      let keys : List PubKey := if t.nsigs > 0 then pk :: t.pubkeys else [pk]
      if proof.witnessSigs.length < 1 then .error .invalidWitness
      else if DuplicateSignatures proof.witnessSigs then .error .duplicateSignatures
      else if ¬ HasValidSignatures verify (sha256 proof.secret)
          proof.witnessSigs required keys then .error .notEnoughSignatures
      else .ok ()

/-- Embedding of `nut11.VerifyP2PKLockedProof` (`nut11.go` lines 350-404).  `now` is
`time.Now().Local().Unix()`. -/
def VerifyP2PKLockedProof (now : Int) (proof : Proof)
    (secret : WellKnownSecret) : Except CashuErr Unit :=
  match ParseP2PKTags parsePubKey secret.tags with
  | .error e => .error e
  | .ok t =>
    if t.locktime > 0 ∧ now > t.locktime then
      if t.refund = [] then .ok ()
      else if proof.witnessSigs.length < 1 then .error .invalidWitness
      else if ¬ HasValidSignatures verify (sha256 proof.secret)
          proof.witnessSigs 1 t.refund then .error .notEnoughSignatures
      else .ok ()
    else verifyPrimary parsePubKey verify sha256 proof secret t

/-- Embedding of `nut11.IsSigAll` (`nut11.go` lines 259-269). -/
def IsSigAll (secret : WellKnownSecret) : Bool :=
  secret.tags.any (fun tag =>
    match tag with
    | [a, b] => a = "sigflag" ∧ b = "SIG_ALL"
    | _ => false)

-- `nut10.DeserializeSecret` (JSON decoding of the well-known secret) is
-- abstract; `none` stands for its error return.
variable (deserializeSecret : String → Option WellKnownSecret)

/-- Embedding of `nut11.ProofsSigAll` (`nut11.go` lines 243-257). -/
def ProofsSigAll : List Proof → Bool
  | [] => false
  | p :: rest =>
    match deserializeSecret p.secret with
    | none => false
    | some s => if IsSigAll s then true else ProofsSigAll rest

end P2PK

end Nut11

namespace WalletReg

/-- A Go `error` value as observed by `isNetworkError`: its message string
and whether it satisfies the `net.Error` / `*net.OpError` / `*url.Error`
type assertions. -/
structure GoError where
  msg : String
  isNetErrorType : Bool
  isOpErrorType : Bool
  isUrlErrorType : Bool
deriving DecidableEq

def plainErr (msg : String) : GoError :=
  { msg := msg, isNetErrorType := false, isOpErrorType := false,
    isUrlErrorType := false }

/-- Embedding of `fmt.Errorf("...: %v", err)` with the `%v` verb: the message is wrapped
and the concrete network error types are lost. -/
def wrapErr (pre : String) (e : GoError) : GoError := plainErr (pre ++ e.msg)

/-- The substring list of `isNetworkError` (`wallet/offline.go` lines 18-30). -/
def networkErrorStrings : List String :=
  ["no such host", "connection refused", "connection timeout",
   "network is unreachable", "temporary failure in name resolution",
   "i/o timeout", "no route to host", "connection reset by peer",
   "server misbehaving", "dial tcp", "lookup"]

def startsWithChars : List Char → List Char → Bool
  | [], _ => true
  | _ :: _, [] => false
  | a :: as, b :: bs => a = b && startsWithChars as bs

def hasSubChars (sub : List Char) : List Char → Bool
  | [] => sub.isEmpty
  | c :: rest => startsWithChars sub (c :: rest) || hasSubChars sub rest

/-- Go `strings.Contains s sub`. -/
def goContains (s sub : String) : Bool := hasSubChars sub.toList s.toList

/-- Embedding of `wallet.isNetworkError` (`wallet/offline.go` lines 12-50) on a non-nil
error. -/
def isNetworkError (e : GoError) : Bool :=
  networkErrorStrings.any (fun ne => goContains e.msg.toLower ne) ||
  e.isNetErrorType || e.isOpErrorType || e.isUrlErrorType

/-- Embedding of the success condition of `hex.DecodeString`: even length,
hex digits only. -/
def goHexDecodable (s : String) : Bool :=
  s.length % 2 = 0 &&
  s.toList.all (fun c => c.isDigit || ('a' ≤ c && c ≤ 'f') || ('A' ≤ c && c ≤ 'F'))

/-- Embedding of `crypto.WalletKeyset`, with the public-key map abstract (`none` is the
Go nil map). -/
structure WalletKeyset (Keys : Type) where
  id : String
  mintURL : String
  unit : String
  active : Bool
  inputFeePpk : Nat
  publicKeys : Option Keys

/-- One entry of the `GET /v1/keysets` response (`nut02.GetKeysetsResponse`). -/
structure KeysetInfo where
  id : String
  unit : String
  active : Bool
  inputFeePpk : Nat
deriving DecidableEq

/-- The first keyset of a `GET /v1/keys/{id}` response
(`keysetsResponse.Keysets[0]`): its reported id and its key map. -/
structure KeysetKeysResponse (Keys : Type) where
  id : String
  keys : Keys

section Registry

variable {Keys : Type}

-- `crypto.DeriveKeysetId` is a pure function of the key map; it is kept
-- abstract because the claims only relate its output to the requested id.
variable (DeriveKeysetId : Keys → String)

/-- Embedding of `wallet.GetKeysetKeys` (`wallet/keyset.go`): `resp` is the outcome of
`client.GetKeysetById(mintURL, id)`. -/
def GetKeysetKeys (resp : Except GoError (KeysetKeysResponse Keys))
    (id : String) : Except GoError Keys :=
  match resp with
  | .error e => .error (wrapErr "error getting keyset from mint: " e)
  | .ok r =>
    if id ≠ DeriveKeysetId r.keys then
      .error (plainErr "Got invalid keyset: derived id differs")
    else .ok r.keys

-- `client.GetKeysetById` is abstracted as a function from the requested
-- keyset id to the mint's response.
variable (fetch : String → Except GoError (KeysetKeysResponse Keys))

/-- The search loop of `wallet.GetMintActiveKeyset`: first keyset that is
active, has the wallet's unit and a hex-decodable id; its keys are fetched
through `GetKeysetKeys` and a fetch error aborts. -/
def GetMintActiveKeysetLoop (mintURL unit : String) :
    List KeysetInfo → Except GoError (WalletKeyset Keys)
  | [] => .error (plainErr "could not find an active keyset for the unit")
  | k :: rest =>
    if k.active ∧ k.unit = unit ∧ goHexDecodable k.id then
      match GetKeysetKeys DeriveKeysetId (fetch k.id) k.id with
      | .error e => .error e
      | .ok keys =>
        .ok { id := k.id, mintURL := mintURL, unit := k.unit, active := true,
              inputFeePpk := k.inputFeePpk, publicKeys := some keys }
    else GetMintActiveKeysetLoop mintURL unit rest

/-- Embedding of `wallet.GetMintActiveKeyset` (`wallet/keyset.go`): `listResp` is the
outcome of `client.GetAllKeysets(mintURL)`. -/
def GetMintActiveKeyset (mintURL unit : String)
    (listResp : Except GoError (List KeysetInfo)) :
    Except GoError (WalletKeyset Keys) :=
  match listResp with
  | .error e => .error (wrapErr "error getting active keysets from mint: " e)
  | .ok ks => GetMintActiveKeysetLoop DeriveKeysetId fetch mintURL unit ks

/-- Embedding of `wallet.walletMint`: the cached view of one mint.  The
`inactiveKeysets` field is a Go map shared by reference between the local
copy and the `w.mints` entry; the embedding keeps them synchronized at each
mutation point exactly as the aliasing does. -/
structure WalletMint (Keys : Type) where
  activeKeyset : WalletKeyset Keys
  inactiveKeysets : List (String × WalletKeyset Keys)

/-- The wallet fields read by `getActiveKeyset`: the unit, the known-mints
map and the keyset table of the database (`w.db.SaveKeyset` /
`w.db.GetKeyset`, keyed by keyset id; storage failures are outside the
modelled state, matching the spec's treatment of the storage engine as an
external collaborator). -/
structure WalletState (Keys : Type) where
  unit : String
  mints : List (String × WalletMint Keys)
  db : List (String × WalletKeyset Keys)

def dbSave (ks : WalletKeyset Keys) (db : List (String × WalletKeyset Keys)) :
    List (String × WalletKeyset Keys) :=
  alInsert ks.id ks db

/-- Running state of the rotation loop of `getActiveKeyset` (`wallet/keyset.go`
lines 124-158): the local `activeKeyset` variable, the local `mint` struct
copy, and the wallet's `mints` and `db` tables. -/
structure RotState (Keys : Type) where
  activeKeyset : WalletKeyset Keys
  mintLocal : WalletMint Keys
  mints : List (String × WalletMint Keys)
  db : List (String × WalletKeyset Keys)

/-- The rotation loop: for every response keyset that is active, matches the
wallet unit and has a hex id, install it as the new active keyset — from the
stored copy when the db has one, otherwise by fetching and id-verifying its
keys.  Each install writes the mint back into `w.mints` (line 156).  A fetch
error aborts the whole call, keeping the mutations made so far. -/
def rotateLoop (mintURL unit : String) :
    List KeysetInfo → RotState Keys → RotState Keys × Option GoError
  | [], st => (st, none)
  | k :: rest, st =>
    if goHexDecodable k.id ∧ k.active ∧ k.unit = unit then
      match alLookup k.id st.db with
      | some stored =>
        let stored' := { stored with active := true, inputFeePpk := k.inputFeePpk }
        let mint' : WalletMint Keys :=
          { activeKeyset := stored',
            inactiveKeysets := alErase stored'.id st.mintLocal.inactiveKeysets }
        rotateLoop mintURL unit rest
          { activeKeyset := stored', mintLocal := mint',
            mints := alInsert mintURL mint' st.mints,
            db := dbSave stored' st.db }
      | none =>
        match GetKeysetKeys DeriveKeysetId (fetch k.id) k.id with
        | .error e => (st, some e)
        | .ok keys =>
          let nk : WalletKeyset Keys :=
            { id := k.id, mintURL := mintURL, unit := k.unit, active := true,
              inputFeePpk := k.inputFeePpk, publicKeys := some keys }
          let mint' := { st.mintLocal with activeKeyset := nk }
          rotateLoop mintURL unit rest
            { activeKeyset := nk, mintLocal := mint',
              mints := alInsert mintURL mint' st.mints,
              db := dbSave nk st.db }
    else rotateLoop mintURL unit rest st

/-- The guard of the rotation loop (`wallet/keyset.go` line 126): the
response keyset is active, matches the wallet unit and has a hex id. -/
def qualKeyset (unit : String) (k : KeysetInfo) : Prop :=
  goHexDecodable k.id = true ∧ k.active = true ∧ k.unit = unit

instance (unit : String) (k : KeysetInfo) : Decidable (qualKeyset unit k) := by
  unfold qualKeyset
  infer_instance

/-- Embedding of `(*Wallet).getActiveKeyset` (`wallet/keyset.go` lines 83-172).  The two
network calls are abstracted as `listResp` (`client.GetAllKeysets`) and
`fetch` (`client.GetKeysetById`).  Returns the wallet state after the call
together with the Go return value. -/
def getActiveKeyset (w : WalletState Keys) (mintURL : String)
    (listResp : Except GoError (List KeysetInfo)) :
    WalletState Keys × Except GoError (WalletKeyset Keys) :=
  match alLookup mintURL w.mints with
  | none => (w, GetMintActiveKeyset DeriveKeysetId fetch mintURL w.unit listResp)
  | some mint =>
    let activeKeyset := mint.activeKeyset
    match listResp with
    | .error e =>
      if isNetworkError e then (w, .ok activeKeyset) else (w, .error e)
    | .ok keysets =>
      match keysets.find? (fun k => k.active && k.id == activeKeyset.id) with
      | some entry =>
        if entry.inputFeePpk ≠ activeKeyset.inputFeePpk then
          let ak := { activeKeyset with inputFeePpk := entry.inputFeePpk }
          let mint' := { mint with activeKeyset := ak }
          ({ w with
              db := dbSave ak w.db
              mints := alInsert mintURL mint' w.mints }, .ok ak)
        else (w, .ok activeKeyset)
      | none =>
        let akInactive := { activeKeyset with active := false }
        let mint0 : WalletMint Keys :=
          { mint with
            inactiveKeysets := alInsert akInactive.id akInactive mint.inactiveKeysets }
        let st0 : RotState Keys :=
          { activeKeyset := akInactive, mintLocal := mint0,
            mints := alInsert mintURL mint0 w.mints,
            db := dbSave akInactive w.db }
        match rotateLoop DeriveKeysetId fetch mintURL w.unit keysets st0 with
        | (st, some e) => ({ w with mints := st.mints, db := st.db }, .error e)
        | (st, none) => ({ w with mints := st.mints, db := st.db }, .ok st.activeKeyset)

end Registry

end WalletReg

namespace SubMgr

structure SupportedMethod where
  method : String
  commands : List String
deriving DecidableEq

/-- Embedding of `cashu.BOLT11_METHOD`. -/
def BOLT11_METHOD : String := "bolt11"

/-- The subscription record as far as bookkeeping is concerned: the
JSON-RPC request id and the `sub_id` key of the manager's map; the three Go
channels carry no state. -/
structure Subscription where
  subId : String
  id : Int
deriving DecidableEq

/-- Embedding of `submanager.SubscriptionManager` bookkeeping state. -/
structure SubMgrState where
  subs : List (String × Subscription)
  idCounter : Int
  supportedMethods : List SupportedMethod

/-- Embedding of `(*SubscriptionManager).IsSubscriptionKindSupported`. -/
def IsSubscriptionKindSupported (methods : List SupportedMethod)
    (kind : String) : Bool :=
  methods.any (fun m => m.method == BOLT11_METHOD && m.commands.contains kind)

/-- The event the `select` in `Subscribe` observes: a server reply with the
given result status, a server error reply, or the 10-second timeout. -/
inductive SubReply where
  | response (status : String)
  | wsError
  | timeout
deriving DecidableEq

/-- Embedding of `(*SubscriptionManager).removeSubscription`. -/
def removeSubscription (st : SubMgrState) (id : String) : SubMgrState :=
  { st with subs := alErase id st.subs }

/-- Embedding of `(*SubscriptionManager).Subscribe` (`wallet/submanager`): `hashHex` is
`hex.EncodeToString(sha256.Sum256(filters[0]))`, abstracted.  The request
is registered in the map, then the reply event decides: status `"OK"` keeps
it, every other outcome removes it again and errors. -/
def Subscribe (hashHex : String → String) (st : SubMgrState) (kind : String)
    (filters : List String) (reply : SubReply) :
    SubMgrState × Except String Subscription :=
  if filters.length < 1 then (st, .error "filters cannot be empty")
  else if ¬ IsSubscriptionKindSupported st.supportedMethods kind then
    (st, .error ("subscription to " ++ kind ++ " not supported by mint"))
  else
    let sub : Subscription := { subId := hashHex (filters.headD ""), id := st.idCounter }
    let st1 : SubMgrState :=
      { st with
        idCounter := st.idCounter + 1
        subs := alInsert sub.subId sub st.subs }
    match reply with
    | .response status =>
      if status = "OK" then (st1, .ok sub)
      else (removeSubscription st1 sub.subId,
            .error "could not setup subscription to mint")
    | .wsError =>
      (removeSubscription st1 sub.subId,
       .error "could not setup subscription to mint: ws error")
    | .timeout =>
      (removeSubscription st1 sub.subId,
       .error "could not setup subscription to mint")

end SubMgr

/-! ## Lemmas about the Go `strconv` model -/

theorem digitVal_ofNat (d : Nat) (h : d < 10) :
    digitVal (Char.ofNat (48 + d)) = some d := by
  interval_cases d <;> decide

theorem natToDigitsAux_ne_nil (n : Nat) (acc : List Char) :
    natToDigitsAux n acc ≠ [] := by
  rw [natToDigitsAux]
  split
  · simp
  · exact natToDigitsAux_ne_nil (n / 10) _
termination_by n
decreasing_by exact Nat.div_lt_self (by omega) (by omega)

theorem mem_natToDigitsAux_digit (n : Nat) (acc : List Char)
    (hacc : ∀ c ∈ acc, 48 ≤ c.toNat ∧ c.toNat ≤ 57) :
    ∀ c ∈ natToDigitsAux n acc, 48 ≤ c.toNat ∧ c.toNat ≤ 57 := by
  rw [natToDigitsAux]
  have hd : 48 ≤ (Char.ofNat (48 + n % 10)).toNat ∧
      (Char.ofNat (48 + n % 10)).toNat ≤ 57 := by
    have h10 : n % 10 < 10 := Nat.mod_lt _ (by omega)
    interval_cases h : (n % 10) <;> decide
  split
  · intro c hc
    rcases List.mem_cons.mp hc with h | h
    · exact h ▸ hd
    · exact hacc c h
  · exact mem_natToDigitsAux_digit (n / 10) _ (fun c hc => by
      rcases List.mem_cons.mp hc with h | h
      · exact h ▸ hd
      · exact hacc c h)
termination_by n
decreasing_by exact Nat.div_lt_self (by omega) (by omega)

theorem parseDigitsAux_natToDigitsAux (n : Nat) :
    ∀ acc a, ∃ L, parseDigitsAux (natToDigitsAux n acc) a
      = parseDigitsAux acc (a * 10 ^ L + n) := by
  intro acc a
  rw [natToDigitsAux]
  by_cases h : n < 10
  · refine ⟨1, ?_⟩
    simp only [h, dite_true]
    show parseDigitsAux (Char.ofNat (48 + n % 10) :: acc) a = _
    rw [parseDigitsAux, digitVal_ofNat _ (Nat.mod_lt _ (by omega))]
    have : n % 10 = n := Nat.mod_eq_of_lt h
    rw [this]
    norm_num
  · simp only [h, dite_false]
    obtain ⟨L, hL⟩ := parseDigitsAux_natToDigitsAux (n / 10)
      (Char.ofNat (48 + n % 10) :: acc) a
    refine ⟨L + 1, ?_⟩
    have key : (a * 10 ^ L + n / 10) * 10 + n % 10 = a * 10 ^ (L + 1) + n := by
      have := Nat.div_add_mod n 10
      ring_nf
      omega
    rw [hL, parseDigitsAux, digitVal_ofNat _ (Nat.mod_lt _ (by omega))]
    show parseDigitsAux acc ((a * 10 ^ L + n / 10) * 10 + n % 10) = _
    rw [key]
termination_by n
decreasing_by exact Nat.div_lt_self (by omega) (by omega)

theorem parseDecimal_natToDecimal (n : Nat) :
    parseDecimal (natToDecimal n) = some n := by
  obtain ⟨L, hL⟩ := parseDigitsAux_natToDigitsAux n [] 0
  unfold natToDecimal
  rcases hlist : natToDigitsAux n [] with _ | ⟨c, cs⟩
  · exact absurd hlist (natToDigitsAux_ne_nil n [])
  · show parseDigitsAux (c :: cs) 0 = some n
    rw [← hlist, hL]
    simp [parseDigitsAux]

theorem splitSign_natToDecimal (n : Nat) :
    splitSign (natToDecimal n) = (false, natToDecimal n) := by
  rcases hlist : natToDecimal n with _ | ⟨c, cs⟩
  · exact absurd hlist (natToDigitsAux_ne_nil n [])
  · have hc : 48 ≤ c.toNat ∧ c.toNat ≤ 57 := by
      refine mem_natToDigitsAux_digit n [] (by simp) c ?_
      rw [show natToDigitsAux n [] = natToDecimal n from rfl, hlist]
      exact List.mem_cons_self c cs
    have h1 : ¬ (c = '-') := by rintro rfl; revert hc; decide
    have h2 : ¬ (c = '+') := by rintro rfl; revert hc; decide
    simp [splitSign, h1, h2]

theorem toList_mk (cs : List Char) : (String.mk cs).toList = cs := rfl

/-- Printing a Go integer in range and re-parsing it with the same bit size
round-trips. -/
theorem goParseInt_goItoa (i : Int) (bitSize : Nat) (h0 : 0 ≤ i)
    (hub : i ≤ 2 ^ (bitSize - 1) - 1) :
    goParseInt (goItoa i) bitSize = some i := by
  have hneg : ¬ i < 0 := by omega
  have habs : ((i.natAbs : Nat) : Int) = i := Int.natAbs_of_nonneg h0
  have hp : (0 : Int) ≤ 2 ^ (bitSize - 1) := pow_nonneg (by norm_num) _
  unfold goItoa
  rw [if_neg hneg]
  unfold goParseInt
  rw [toList_mk, splitSign_natToDecimal]
  dsimp only
  rw [parseDecimal_natToDecimal]
  show (if -(2 : Int) ^ (bitSize - 1) ≤ (i.natAbs : Int) ∧
      (i.natAbs : Int) ≤ 2 ^ (bitSize - 1) - 1 then some ((i.natAbs : Nat) : Int)
    else none) = some i
  rw [habs, if_pos ⟨by linarith, hub⟩]

/-! ## Lemmas about the association-list map model -/

theorem alLookup_erase_self {A : Type} (k : String) (m : List (String × A)) :
    alLookup k (alErase k m) = none := by
  induction m with
  | nil => rfl
  | cons p rest ih =>
    by_cases h : p.1 = k
    · simpa [alErase, h] using ih
    · simpa [alErase, alLookup, h] using ih

theorem alLookup_erase_ne {A : Type} (k k' : String) (m : List (String × A))
    (h : k ≠ k') : alLookup k (alErase k' m) = alLookup k m := by
  induction m with
  | nil => rfl
  | cons p rest ih =>
    by_cases hp : p.1 = k'
    · rw [alErase, List.filter_cons_of_neg (by simpa using hp)]
      rw [alErase] at ih
      rw [ih, alLookup, if_neg (by rw [hp]; exact fun hh => h hh.symm)]
    · rw [alErase, List.filter_cons_of_pos (by simpa using hp)]
      rw [alLookup, alLookup]
      rw [alErase] at ih
      by_cases hk : p.1 = k
      · simp [hk]
      · simp only [hk, if_false]
        exact ih

theorem alLookup_insert_self {A : Type} (k : String) (v : A)
    (m : List (String × A)) : alLookup k (alInsert k v m) = some v := by
  simp [alInsert, alLookup]

theorem alLookup_insert_ne {A : Type} (k k' : String) (v : A)
    (m : List (String × A)) (h : k ≠ k') :
    alLookup k (alInsert k' v m) = alLookup k m := by
  rw [alInsert, alLookup, if_neg (fun hh => h hh.symm)]
  exact alLookup_erase_ne k k' m h

theorem alLookup_some_mem {A : Type} (k : String) (v : A)
    (m : List (String × A)) (h : alLookup k m = some v) : (k, v) ∈ m := by
  induction m with
  | nil => cases h
  | cons p rest ih =>
    rw [alLookup] at h
    by_cases hp : p.1 = k
    · rw [if_pos hp] at h
      cases h
      exact List.mem_cons.mpr (Or.inl (by rw [← hp]))
    · rw [if_neg hp] at h
      exact List.mem_cons_of_mem p (ih h)

theorem alInsert_forall {A : Type} (P : String × A → Prop) (k : String) (v : A)
    (m : List (String × A)) (hm : ∀ p ∈ m, P p) (hv : P (k, v)) :
    ∀ p ∈ alInsert k v m, P p := by
  intro p hp
  rcases List.mem_cons.mp hp with h | h
  · exact h ▸ hv
  · exact hm p (List.mem_of_mem_filter h)

theorem alErase_forall {A : Type} (P : String × A → Prop) (k : String)
    (m : List (String × A)) (hm : ∀ p ∈ m, P p) :
    ∀ p ∈ alErase k m, P p :=
  fun p hp => hm p (List.mem_of_mem_filter hp)

/-! ## Lemmas about the NUT-11 signature counting loop -/

namespace Nut11

variable {PubKey : Type} {H : Type}
variable (verify : String → H → PubKey → Bool)

theorem findVerifyIdx_eq_none_iff (hash : H) (sig : String)
    (keys : List PubKey) :
    findVerifyIdx verify hash sig keys = none ↔
      ∀ k ∈ keys, verify sig hash k = false := by
  induction keys with
  | nil => simp [findVerifyIdx]
  | cons k rest ih =>
    by_cases hv : verify sig hash k
    · simp [findVerifyIdx, hv]
    · simp only [findVerifyIdx] at ih ⊢
      simp [hv, ih, Bool.not_eq_true] at *

theorem hvsLoop_ge_acc (hash : H) (sigs : List String) (keys : List PubKey)
    (acc : Nat) : acc ≤ hvsLoop verify hash sigs keys acc := by
  induction sigs generalizing keys acc with
  | nil => simp [hvsLoop]
  | cons s rest ih =>
    rw [hvsLoop]
    rcases h : findVerifyIdx verify hash s keys with _ | i
    · exact ih keys acc
    · exact le_trans (Nat.le_succ acc) (ih _ _)

theorem hvsLoop_one_iff (hash : H) (sigs : List String) (keys : List PubKey) :
    1 ≤ hvsLoop verify hash sigs keys 0 ↔
      ∃ sig ∈ sigs, ∃ k ∈ keys, verify sig hash k = true := by
  induction sigs with
  | nil => simp [hvsLoop]
  | cons s rest ih =>
    rw [hvsLoop]
    rcases h : findVerifyIdx verify hash s keys with _ | i
    · rw [ih]
      have hnone := (findVerifyIdx_eq_none_iff verify hash s keys).mp h
      constructor
      · rintro ⟨sig, hmem, k, hk, hv⟩
        exact ⟨sig, List.mem_cons_of_mem s hmem, k, hk, hv⟩
      · rintro ⟨sig, hmem, k, hk, hv⟩
        rcases List.mem_cons.mp hmem with rfl | hmem'
        · exact absurd hv (by simp [hnone k hk])
        · exact ⟨sig, hmem', k, hk, hv⟩
    · constructor
      · intro _
        rcases hi : (findVerifyIdx verify hash s keys) with _ | j
        · rw [h] at hi; cases hi
        · -- the head signature verifies under some key
          have : ∃ k ∈ keys, verify s hash k = true := by
            by_contra hcon
            push_neg at hcon
            have := (findVerifyIdx_eq_none_iff verify hash s keys).mpr
              (fun k hk => by simpa using hcon k hk)
            rw [h] at this; cases this
          obtain ⟨k, hk, hv⟩ := this
          exact ⟨s, List.mem_cons_self s rest, k, hk, hv⟩
      · intro _
        exact le_trans (by omega) (hvsLoop_ge_acc verify hash rest _ 1)

theorem HasValidSignatures_one_iff (hash : H) (sigs : List String)
    (keys : List PubKey) :
    HasValidSignatures verify hash sigs 1 keys = true ↔
      ∃ sig ∈ sigs, ∃ k ∈ keys, verify sig hash k = true := by
  rw [← hvsLoop_one_iff verify hash sigs keys]
  unfold HasValidSignatures
  constructor
  · intro hge
    have : ((1 : Int) ≤ (hvsLoop verify hash sigs keys 0 : Int)) := by
      simpa [ge_iff_le] using of_decide_eq_true hge
    exact_mod_cast this
  · intro hge
    apply decide_eq_true
    show ((hvsLoop verify hash sigs keys 0 : Int)) ≥ 1
    exact_mod_cast hge

theorem dupLoop_true_ne_nil (sigs seen : List String)
    (h : dupLoop sigs seen = true) : sigs ≠ [] := by
  intro hnil
  rw [hnil] at h
  simp [dupLoop] at h

theorem isSigAll_iff (s : WellKnownSecret) :
    IsSigAll s = true ↔ ∃ tag ∈ s.tags, tag = ["sigflag", "SIG_ALL"] := by
  unfold IsSigAll
  rw [List.any_eq_true]
  constructor
  · rintro ⟨tag, ht, hp⟩
    refine ⟨tag, ht, ?_⟩
    rcases tag with _ | ⟨a, _ | ⟨b, _ | _⟩⟩ <;> simp at hp
    obtain ⟨h1, h2⟩ := hp
    rw [h1, h2]
  · rintro ⟨tag, ht, rfl⟩
    exact ⟨_, ht, by simp⟩

end Nut11

/-! ## Claim theorems -/

namespace Nut11

section Claims

variable {PubKey : Type} [DecidableEq PubKey] {H : Type}
variable (parsePubKey : String → Option PubKey)
variable (verify : String → H → PubKey → Bool)
variable (sha256 : String → H)

/-- Claim C10: `ProofsSigAll` returns true only when some proof's secret
deserializes to a well-known secret containing the exact tag
`["sigflag", "SIG_ALL"]`; it returns false on the empty list, and it
returns false whenever a proof occurring before the first SIG_ALL-tagged
proof fails to deserialize. -/
theorem c10_proofs_sigall (des : String → Option WellKnownSecret) :
    (∀ ps, ProofsSigAll des ps = true →
      ∃ p ∈ ps, ∃ s, des p.secret = some s ∧
        ∃ tag ∈ s.tags, tag = ["sigflag", "SIG_ALL"]) ∧
    (ProofsSigAll des [] = false) ∧
    (∀ l₁ (q : Proof) l₂,
      (∀ p ∈ l₁, ∀ s, des p.secret = some s → IsSigAll s = false) →
      des q.secret = none → ProofsSigAll des (l₁ ++ q :: l₂) = false) := by
  refine ⟨?_, rfl, ?_⟩
  · intro ps
    induction ps with
    | nil => intro h; cases h
    | cons p rest ih =>
      intro h
      rw [ProofsSigAll] at h
      rcases hdes : des p.secret with _ | s <;> rw [hdes] at h <;>
        dsimp only at h
      · cases h
      · by_cases hsig : IsSigAll s = true
        · obtain ⟨tag, htag, heq⟩ := (isSigAll_iff s).mp hsig
          exact ⟨p, List.mem_cons_self p rest, s, hdes, tag, htag, heq⟩
        · rw [if_neg hsig] at h
          obtain ⟨p', hp', hrest⟩ := ih h
          exact ⟨p', List.mem_cons_of_mem p hp', hrest⟩
  · intro l₁ q l₂ hpre hq
    induction l₁ with
    | nil => rw [List.nil_append, ProofsSigAll, hq]
    | cons p rest ih =>
      rw [List.cons_append, ProofsSigAll]
      rcases hdes : des p.secret with _ | s
      · rfl
      · dsimp only
        rw [if_neg (by simp [hpre p (List.mem_cons_self p rest) s hdes])]
        exact ih (fun p' hp' => hpre p' (List.mem_cons_of_mem p hp'))

/-- Witness for the quantified part of the C10 theorem. -/
theorem c10_proofs_sigall_witness :
    ProofsSigAll (fun _ => none) [] = false :=
  (c10_proofs_sigall (fun _ => none)).2.1

/-- Claim C2: with parsed tags carrying locktime `L > 0`: when `now > L`
and the refund list is empty the proof verifies unconditionally; when the
refund list is non-empty it verifies exactly when some witness signature
verifies over `SHA256(secret)` under some refund key, an empty witness
yields `InvalidWitness` and a non-verifying witness yields
`NotEnoughSignaturesErr`; when `now ≤ L` the primary P2PK condition is
evaluated instead. -/
theorem c2_locktime_refund (now : Int) (proof : Proof)
    (secret : WellKnownSecret) (t : P2PKTags PubKey)
    (hparse : ParseP2PKTags parsePubKey secret.tags = Except.ok t)
    (hlock : 0 < t.locktime) :
    (t.locktime < now →
      (t.refund = [] →
        VerifyP2PKLockedProof parsePubKey verify sha256 now proof secret
          = .ok ()) ∧
      (t.refund ≠ [] →
        (VerifyP2PKLockedProof parsePubKey verify sha256 now proof secret
            = .ok () ↔
          ∃ sig ∈ proof.witnessSigs, ∃ k ∈ t.refund,
            verify sig (sha256 proof.secret) k = true) ∧
        (proof.witnessSigs = [] →
          VerifyP2PKLockedProof parsePubKey verify sha256 now proof secret
            = .error .invalidWitness) ∧
        (proof.witnessSigs ≠ [] →
          (∀ sig ∈ proof.witnessSigs, ∀ k ∈ t.refund,
            verify sig (sha256 proof.secret) k = false) →
          VerifyP2PKLockedProof parsePubKey verify sha256 now proof secret
            = .error .notEnoughSignatures))) ∧
    (now ≤ t.locktime →
      VerifyP2PKLockedProof parsePubKey verify sha256 now proof secret
        = verifyPrimary parsePubKey verify sha256 proof secret t) := by
  unfold VerifyP2PKLockedProof
  rw [hparse]
  dsimp only
  constructor
  · intro hnow
    rw [if_pos ⟨hlock, hnow⟩]
    constructor
    · intro hr
      rw [if_pos hr]
    · intro hr
      rw [if_neg hr]
      by_cases hsig : proof.witnessSigs = []
      · rw [if_pos (by simp [hsig])]
        refine ⟨?_, fun _ => rfl, fun hcon => absurd hsig hcon⟩
        constructor
        · intro hc; simp at hc
        · rintro ⟨sig, hmem, _⟩
          rw [hsig] at hmem
          simp at hmem
      · rw [if_neg (fun hlt => hsig (List.length_eq_zero.mp (by omega)))]
        by_cases hv : HasValidSignatures verify (sha256 proof.secret)
            proof.witnessSigs 1 t.refund = true
        · rw [if_neg (by simp [hv])]
          refine ⟨⟨fun _ => (HasValidSignatures_one_iff verify _ _ _).mp hv,
            fun _ => rfl⟩, fun h => absurd h hsig, fun _ hall => ?_⟩
          obtain ⟨sig, hm, k, hk, hvk⟩ :=
            (HasValidSignatures_one_iff verify _ _ _).mp hv
          exact absurd hvk (by simp [hall sig hm k hk])
        · rw [if_pos (by simpa using hv)]
          refine ⟨⟨fun hc => by simp at hc, fun hex => ?_⟩,
            fun h => absurd h hsig, fun _ _ => rfl⟩
          exact absurd ((HasValidSignatures_one_iff verify _ _ _).mpr hex) hv
  · intro hle
    rw [if_neg (fun hc => absurd hc.2 (not_lt.mpr hle))]

/-- Witness for C2: expired locktime with a refund key and an empty witness
yields `InvalidWitness`. -/
theorem c2_locktime_refund_witness :
    VerifyP2PKLockedProof (fun _ => some (0 : Nat))
      (fun _ (_ : String) _ => false) (fun s => s) 100
      { secret := "m", witnessSigs := [] }
      { kind := "P2PK", data := "K",
        tags := [["locktime", "50"], ["refund", "R"]] }
      = .error .invalidWitness := by
  have h := c2_locktime_refund (fun _ => some (0 : Nat))
    (fun _ (_ : String) _ => false) (fun s => s) 100
    { secret := "m", witnessSigs := [] }
    { kind := "P2PK", data := "K",
      tags := [["locktime", "50"], ["refund", "R"]] }
    { sigflag := "", nsigs := 0, pubkeys := [], locktime := 50, refund := [0] }
    (by rfl) (by norm_num)
  exact (((h.1 (by norm_num)).2 (by simp)).2.1 rfl)

/-- Claim C3 (amended): the duplicate-signature check runs only when the
primary P2PK condition is evaluated (no positive locktime in the past): in
that branch — tags parsed, data key parsed, and pubkeys non-empty whenever
`n_sigs > 0` — a witness with a duplicate signature is rejected with
`DuplicateSignaturesErr`.  After an expired locktime the check is skipped
(see the counterexample). -/
theorem c3_duplicates_primary (now : Int) (proof : Proof)
    (secret : WellKnownSecret) (t : P2PKTags PubKey) (pk : PubKey)
    (hparse : ParseP2PKTags parsePubKey secret.tags = Except.ok t)
    (hnolock : ¬ (0 < t.locktime ∧ t.locktime < now))
    (hdata : parsePubKey secret.data = some pk)
    (hpk : ¬ (0 < t.nsigs ∧ t.pubkeys = []))
    (hdup : DuplicateSignatures proof.witnessSigs = true) :
    VerifyP2PKLockedProof parsePubKey verify sha256 now proof secret
      = .error .duplicateSignatures := by
  have hne : proof.witnessSigs ≠ [] := dupLoop_true_ne_nil _ _ hdup
  unfold VerifyP2PKLockedProof
  rw [hparse]
  dsimp only
  rw [if_neg hnolock]
  unfold verifyPrimary
  rw [hdata]
  dsimp only
  rw [if_neg hpk]
  rw [if_neg (fun hlt => hne (List.length_eq_zero.mp (by omega)))]
  rw [if_pos hdup]

/-- Witness for C3 (amended): two equal signatures under an unexpired lock
are rejected as duplicates. -/
theorem c3_duplicates_primary_witness :
    VerifyP2PKLockedProof (fun _ => some (0 : Nat))
      (fun _ (_ : String) _ => false) (fun s => s) 100
      { secret := "m", witnessSigs := ["aa", "aa"] }
      { kind := "P2PK", data := "K", tags := [] }
      = .error .duplicateSignatures := by
  have h := c3_duplicates_primary (fun _ => some (0 : Nat))
    (fun _ (_ : String) _ => false) (fun s => s) 100
    { secret := "m", witnessSigs := ["aa", "aa"] }
    { kind := "P2PK", data := "K", tags := [] }
    { sigflag := "", nsigs := 0, pubkeys := [], locktime := 0, refund := [] }
    0 (by rfl) (by norm_num) (by rfl) (by norm_num) (by rfl)
  exact h

/-- Claim C3 counterexample: a proof whose locktime has expired and whose
refund list is empty is accepted even though its witness contains duplicate
signatures, so `DuplicateSignaturesErr` is not returned for all proofs. -/
theorem c3_counterexample :
    DuplicateSignatures ["aa", "aa"] = true ∧
    VerifyP2PKLockedProof (fun _ => some (0 : Nat))
      (fun _ (_ : String) _ => false) (fun s => s) 100
      { secret := "m", witnessSigs := ["aa", "aa"] }
      { kind := "P2PK", data := "K", tags := [["locktime", "50"]] }
      = .ok () :=
  ⟨rfl, rfl⟩

/-- Claim C1 evaluation at the failing input: a proof locked with
`n_sigs = 3` over the two-key union `{K} ∪ {P}` is accepted from three
distinct signature strings produced by only two distinct keys, because
`HasValidSignatures` stops deleting a matched key once a single candidate
key remains. -/
theorem c1_code_eval :
    VerifyP2PKLockedProof
      (fun s => if s = "K" then some (0 : Nat)
        else if s = "P" then some 1 else none)
      (fun sig (_ : String) k =>
        (sig = "s1" && k == 0) || (sig = "s2" && k == 1) || (sig = "s3" && k == 1))
      (fun s => s) 100
      { secret := "m", witnessSigs := ["s1", "s2", "s3"] }
      { kind := "P2PK", data := "K", tags := [["n_sigs", "3"], ["pubkeys", "P"]] }
      = .ok () ∧
    (∀ ks : List Nat, (∀ k ∈ ks, k = 0 ∨ k = 1) → ks.Nodup → ks.length ≤ 2) := by
  constructor
  · rfl
  · intro ks hsub hnd
    have hs : ks ⊆ [0, 1] := by
      intro k hk
      rcases hsub k hk with rfl | rfl <;> simp
    calc ks.length ≤ ([0, 1] : List Nat).length :=
      (List.subperm_of_subset hnd hs).length_le
    _ = 2 := rfl

/-- Witness for the quantified part of the C1 theorem: any duplicate-free
key list drawn from the two-key union has at most two elements. -/
theorem c1_code_eval_witness : ([0, 1] : List Nat).length ≤ 2 :=
  c1_code_eval.2 [0, 1] (by simp) (by simp)

/-- Claim C4 evaluation at the failing input: `ParseP2PKTags` accepts the
tag `["n_sigs", "0"]` and returns `NSigs = 0` instead of
`NSigsMustBePositiveErr`; negative values are rejected as the claim says. -/
theorem c4_code_eval :
    ParseP2PKTags (fun _ => some (0 : Nat)) [["n_sigs", "0"]]
      = Except.ok { sigflag := "", nsigs := 0, pubkeys := [], locktime := 0,
                    refund := [] } ∧
    ParseP2PKTags (fun _ => some (0 : Nat)) [["n_sigs", "-1"]]
      = Except.error .nsigsMustBePositive :=
  ⟨rfl, rfl⟩

end Claims

end Nut11

namespace WalletReg

/-- Claim C5: `GetKeysetKeys` returns the fetched keys exactly when the
locally derived keyset id matches the requested id, errors whenever it
differs, and every key map it ever accepts satisfies
`DeriveKeysetId keys = id`. -/
theorem c5_keyset_id_check {Keys : Type} (DeriveKeysetId : Keys → String)
    (r : KeysetKeysResponse Keys) (id : String) :
    (GetKeysetKeys DeriveKeysetId (.ok r) id = .ok r.keys ↔
      DeriveKeysetId r.keys = id) ∧
    (DeriveKeysetId r.keys ≠ id →
      ∃ e, GetKeysetKeys DeriveKeysetId (.ok r) id = .error e) ∧
    (∀ resp ks, GetKeysetKeys DeriveKeysetId resp id = .ok ks →
      DeriveKeysetId ks = id) := by
  refine ⟨?_, ?_, ?_⟩
  · unfold GetKeysetKeys
    dsimp only
    by_cases h : id = DeriveKeysetId r.keys
    · rw [if_neg (by simpa using h)]
      simp [h.symm]
    · rw [if_pos (by simpa using h)]
      constructor
      · intro hc; cases hc
      · intro hc; exact absurd hc.symm h
  · intro h
    unfold GetKeysetKeys
    dsimp only
    rw [if_pos (fun hh => h hh.symm)]
    exact ⟨_, rfl⟩
  · intro resp ks h
    rcases resp with e | r'
    · cases h
    · unfold GetKeysetKeys at h
      dsimp only at h
      by_cases hid : id = DeriveKeysetId r'.keys
      · rw [if_neg (by simpa using hid)] at h
        cases h
        exact hid.symm
      · rw [if_pos (by simpa using hid)] at h
        cases h

/-- Witness for C5 at a concrete response. -/
theorem c5_keyset_id_check_witness :
    GetKeysetKeys (fun _ : Nat => "aa") (.ok ⟨"aa", 5⟩) "aa" = .ok 5 :=
  (c5_keyset_id_check (fun _ : Nat => "aa") ⟨"aa", 5⟩ "aa").1.mpr rfl

/-- Claim C6: on a known mint, a keyset-list refresh failing with a
network-classified error falls back to the cached active keyset with no
error and no state change, while any other error is propagated without
fallback. -/
theorem c6_offline_fallback {Keys : Type} (DeriveKeysetId : Keys → String)
    (fetch : String → Except GoError (KeysetKeysResponse Keys))
    (w : WalletState Keys) (mintURL : String) (mint : WalletMint Keys)
    (e : GoError) (hknown : alLookup mintURL w.mints = some mint) :
    (isNetworkError e = true →
      getActiveKeyset DeriveKeysetId fetch w mintURL (.error e)
        = (w, .ok mint.activeKeyset)) ∧
    (isNetworkError e = false →
      getActiveKeyset DeriveKeysetId fetch w mintURL (.error e)
        = (w, .error e)) := by
  unfold getActiveKeyset
  rw [hknown]
  constructor <;> intro h
  · dsimp only
    rw [if_pos h]
  · dsimp only
    rw [if_neg (by simp [h])]

/-- Witness for C6: a `net.Error`-typed failure on a known mint returns the
cached keyset. -/
theorem c6_offline_fallback_witness :
    getActiveKeyset (fun _ : Nat => "aa") (fun _ => .error (plainErr "x"))
      { unit := "sat",
        mints := [("m", { activeKeyset :=
          { id := "00aa", mintURL := "m", unit := "sat", active := true,
            inputFeePpk := 0, publicKeys := some 7 }, inactiveKeysets := [] })],
        db := [] }
      "m" (.error { msg := "", isNetErrorType := true, isOpErrorType := false,
                    isUrlErrorType := false })
      = ({ unit := "sat",
           mints := [("m", { activeKeyset :=
             { id := "00aa", mintURL := "m", unit := "sat", active := true,
               inputFeePpk := 0, publicKeys := some 7 }, inactiveKeysets := [] })],
           db := [] },
         .ok { id := "00aa", mintURL := "m", unit := "sat", active := true,
               inputFeePpk := 0, publicKeys := some 7 }) := by
  have h := c6_offline_fallback (fun _ : Nat => "aa")
    (fun _ => .error (plainErr "x"))
    { unit := "sat",
      mints := [("m", { activeKeyset :=
        { id := "00aa", mintURL := "m", unit := "sat", active := true,
          inputFeePpk := 0, publicKeys := some 7 }, inactiveKeysets := [] })],
      db := [] }
    "m"
    { activeKeyset :=
        { id := "00aa", mintURL := "m", unit := "sat", active := true,
          inputFeePpk := 0, publicKeys := some 7 }, inactiveKeysets := [] }
    { msg := "", isNetErrorType := true, isOpErrorType := false,
      isUrlErrorType := false }
    (by rfl)
  exact h.1 (by simp [isNetworkError])

end WalletReg

namespace SubMgr

/-- Claim C8: `Subscribe` keeps the new subscription registered and returns
it only on an `"OK"` result; on a server error reply, a non-OK reply or the
timeout it returns an error and the subscription id is removed from the
manager's map. -/
theorem c8_subscribe (hashHex : String → String) (st : SubMgrState)
    (kind : String) (filters : List String) (reply : SubReply)
    (hf : 1 ≤ filters.length)
    (hs : IsSubscriptionKindSupported st.supportedMethods kind = true) :
    (∀ sub, (Subscribe hashHex st kind filters reply).2 = .ok sub →
      reply = .response "OK" ∧
      alLookup sub.subId (Subscribe hashHex st kind filters reply).1.subs
        = some sub) ∧
    ((reply = .response "OK" → False) →
      (∃ msg, (Subscribe hashHex st kind filters reply).2 = .error msg) ∧
      alLookup (hashHex (filters.headD ""))
        (Subscribe hashHex st kind filters reply).1.subs = none) := by
  unfold Subscribe
  rw [if_neg (by omega), if_neg (by simp [hs])]
  rcases reply with status | _ | _
  · by_cases hok : status = "OK"
    · subst hok
      constructor
      · intro sub h
        dsimp only at h ⊢
        rw [if_pos rfl] at h ⊢
        cases h
        exact ⟨rfl, alLookup_insert_self _ _ _⟩
      · intro hne
        exact absurd rfl hne
    · constructor
      · intro sub h
        dsimp only at h
        rw [if_neg hok] at h
        cases h
      · intro _
        dsimp only
        rw [if_neg hok]
        exact ⟨⟨_, rfl⟩, alLookup_erase_self _ _⟩
  · constructor
    · intro sub h
      dsimp only at h
      cases h
    · intro _
      dsimp only
      exact ⟨⟨_, rfl⟩, alLookup_erase_self _ _⟩
  · constructor
    · intro sub h
      dsimp only at h
      cases h
    · intro _
      dsimp only
      exact ⟨⟨_, rfl⟩, alLookup_erase_self _ _⟩

/-- Witness for C8: a timeout removes the pending subscription. -/
theorem c8_subscribe_witness :
    (Subscribe (fun _ => "h1")
      { subs := [], idCounter := 0,
        supportedMethods := [{ method := "bolt11", commands := ["bolt11_mint_quote"] }] }
      "bolt11_mint_quote" ["q1"] .timeout).2
      = .error "could not setup subscription to mint" ∧
    alLookup "h1" (Subscribe (fun _ => "h1")
      { subs := [], idCounter := 0,
        supportedMethods := [{ method := "bolt11", commands := ["bolt11_mint_quote"] }] }
      "bolt11_mint_quote" ["q1"] .timeout).1.subs = none := by
  have h := (c8_subscribe (fun _ => "h1")
    { subs := [], idCounter := 0,
      supportedMethods := [{ method := "bolt11", commands := ["bolt11_mint_quote"] }] }
    "bolt11_mint_quote" ["q1"] .timeout (by norm_num) (by rfl)).2
    (fun hc => by cases hc)
  exact ⟨by rfl, h.2⟩

end SubMgr

/-! ## The serialize/parse round trip for P2PK tags (claim C9) -/

theorem exceptBind_ok {ε α β : Type} (a : α) (g : α → Except ε β) :
    (Except.ok (ε := ε) a >>= g) = g a := rfl

theorem foldlM_single {ε α β : Type} (f : α → β → Except ε α) (a : α) (t : β) :
    List.foldlM f a [t] = f a t := by
  show f a t >>= (fun b => List.foldlM f b []) = f a t
  cases f a t <;> rfl

namespace Nut11

section RoundTrip

variable {PubKey : Type} [DecidableEq PubKey]
variable (parsePubKey : String → Option PubKey)
variable (serializeHex : PubKey → String)

theorem parseKeyList_map (keys : List PubKey)
    (hk : ∀ k ∈ keys, ∃ k', parsePubKey (serializeHex k) = some k' ∧
      serializeHex k' = serializeHex k) :
    ∃ ks, parseKeyList parsePubKey (keys.map serializeHex) = .ok ks ∧
      ks.map serializeHex = keys.map serializeHex := by
  induction keys with
  | nil => exact ⟨[], rfl, rfl⟩
  | cons k rest ih =>
    obtain ⟨k', hp, hs⟩ := hk k (List.mem_cons_self k rest)
    obtain ⟨ks, hws, hmap⟩ :=
      ih (fun k2 hk2 => hk k2 (List.mem_cons_of_mem k hk2))
    refine ⟨k' :: ks, ?_, by simp [hs, hmap]⟩
    rw [List.map_cons, parseKeyList, hp]
    dsimp only
    rw [hws]

theorem applyTag_sigflag_all (acc : P2PKTags PubKey) :
    p2pkApplyTag parsePubKey acc ["sigflag", "SIG_ALL"]
      = .ok { acc with sigflag := "SIG_ALL" } := rfl

theorem applyTag_nsigs (acc : P2PKTags PubKey) (n : Int) (h1 : 0 < n)
    (h2 : n ≤ 127) :
    p2pkApplyTag parsePubKey acc ["n_sigs", goItoa n]
      = .ok { acc with nsigs := n } := by
  have hpi := goParseInt_goItoa n 8 h1.le (le_trans h2 (by norm_num))
  have hn : ¬ (n < 0) := by omega
  simp [p2pkApplyTag, hpi, hn]

theorem applyTag_locktime (acc : P2PKTags PubKey) (n : Int) (h1 : 0 < n)
    (h2 : n ≤ 2 ^ 63 - 1) :
    p2pkApplyTag parsePubKey acc ["locktime", goItoa n]
      = .ok { acc with locktime := n } := by
  have hpi := goParseInt_goItoa n 64 h1.le (le_trans h2 (by norm_num))
  simp [p2pkApplyTag, hpi]

theorem applyTag_pubkeys (acc : P2PKTags PubKey) (keys : List PubKey)
    (hne : keys ≠ [])
    (hk : ∀ k ∈ keys, ∃ k', parsePubKey (serializeHex k) = some k' ∧
      serializeHex k' = serializeHex k) :
    ∃ ks, p2pkApplyTag parsePubKey acc ("pubkeys" :: keys.map serializeHex)
      = .ok { acc with pubkeys := ks } ∧
      ks.map serializeHex = keys.map serializeHex := by
  obtain ⟨ks, hws, hmap⟩ := parseKeyList_map parsePubKey serializeHex keys hk
  have hlen : 1 ≤ keys.length := List.length_pos.mpr hne
  refine ⟨ks, ?_, hmap⟩
  unfold p2pkApplyTag
  rw [if_neg (by simp; omega)]
  simp only [List.headD_cons, List.drop_one, List.tail_cons]
  rw [if_pos trivial, hws]
  simp

theorem applyTag_refund (acc : P2PKTags PubKey) (keys : List PubKey)
    (hne : keys ≠ [])
    (hk : ∀ k ∈ keys, ∃ k', parsePubKey (serializeHex k) = some k' ∧
      serializeHex k' = serializeHex k) :
    ∃ ks, p2pkApplyTag parsePubKey acc ("refund" :: keys.map serializeHex)
      = .ok { acc with refund := ks } ∧
      ks.map serializeHex = keys.map serializeHex := by
  obtain ⟨ks, hws, hmap⟩ := parseKeyList_map parsePubKey serializeHex keys hk
  have hlen : 1 ≤ keys.length := List.length_pos.mpr hne
  refine ⟨ks, ?_, hmap⟩
  unfold p2pkApplyTag
  rw [if_neg (by simp; omega)]
  simp only [List.headD_cons, List.drop_one, List.tail_cons]
  rw [if_pos trivial, hws]
  simp

end RoundTrip

section Claims9

variable {PubKey : Type} [DecidableEq PubKey]
variable (parsePubKey : String → Option PubKey)
variable (serializeHex : PubKey → String)

/-- Claim C9: serializing well-formed P2PK tags (sigflag empty or SIG_ALL,
`0 ≤ NSigs ≤ 127`, locktime a non-negative int64) and parsing the result
succeeds and restores `Sigflag`, `NSigs` and `Locktime` exactly and the
`Pubkeys`/`Refund` lists up to equal compressed serializations in the same
order, identifying empty and absent lists.  The hypothesis on keys is the
btcec contract that a compressed serialization re-parses to a key with the
same serialization; the claim's "no nil keys" premise is inherent in the
embedding, where keys are values. -/
theorem c9_serialize_parse_roundtrip (t : P2PKTags PubKey)
    (hsf : t.sigflag = "" ∨ t.sigflag = "SIG_ALL")
    (hn0 : 0 ≤ t.nsigs) (hn1 : t.nsigs ≤ 127)
    (hl0 : 0 ≤ t.locktime) (hl1 : t.locktime ≤ 2 ^ 63 - 1)
    (hk : ∀ k, (k ∈ t.pubkeys ∨ k ∈ t.refund) →
      ∃ k', parsePubKey (serializeHex k) = some k' ∧
        serializeHex k' = serializeHex k) :
    ∃ t', ParseP2PKTags parsePubKey (SerializeP2PKTags serializeHex t)
        = .ok t' ∧
      t'.sigflag = t.sigflag ∧ t'.nsigs = t.nsigs ∧
      t'.locktime = t.locktime ∧
      t'.pubkeys.map serializeHex = t.pubkeys.map serializeHex ∧
      t'.refund.map serializeHex = t.refund.map serializeHex := by
  unfold ParseP2PKTags SerializeP2PKTags
  rw [if_neg (by split_ifs <;> simp)]
  simp only [List.append_assoc]
  rw [List.foldlM_append]
  -- sigflag segment
  have seg1 : ∃ a1 : P2PKTags PubKey,
      List.foldlM (p2pkApplyTag parsePubKey) {}
        (if t.sigflag = "SIG_ALL" then [["sigflag", "SIG_ALL"]] else [])
        = .ok a1 ∧ a1 = { sigflag := t.sigflag } := by
    rcases hsf with h | h
    · rw [if_neg (by simp [h])]
      exact ⟨{ sigflag := t.sigflag }, by rw [h]; rfl, rfl⟩
    · rw [if_pos h, foldlM_single, applyTag_sigflag_all]
      exact ⟨_, rfl, by rw [h]⟩
  obtain ⟨a1, e1, h1⟩ := seg1
  rw [e1, exceptBind_ok, List.foldlM_append]
  -- n_sigs segment
  have seg2 : ∃ a2 : P2PKTags PubKey,
      List.foldlM (p2pkApplyTag parsePubKey) a1
        (if t.nsigs > 0 then [["n_sigs", goItoa t.nsigs]] else [])
        = .ok a2 ∧ a2 = { sigflag := t.sigflag, nsigs := t.nsigs } := by
    by_cases h : t.nsigs > 0
    · rw [if_pos h, foldlM_single, applyTag_nsigs parsePubKey a1 t.nsigs h hn1]
      exact ⟨_, rfl, by rw [h1]⟩
    · rw [if_neg h]
      have hz : t.nsigs = 0 := by omega
      exact ⟨a1, rfl, by rw [h1, hz]⟩
  obtain ⟨a2, e2, h2⟩ := seg2
  rw [e2, exceptBind_ok, List.foldlM_append]
  -- pubkeys segment
  have seg3 : ∃ (ksp : List PubKey) (a3 : P2PKTags PubKey),
      List.foldlM (p2pkApplyTag parsePubKey) a2
        (if t.pubkeys ≠ [] then ["pubkeys" :: t.pubkeys.map serializeHex]
          else [])
        = .ok a3 ∧
      a3 = { sigflag := t.sigflag, nsigs := t.nsigs, pubkeys := ksp } ∧
      ksp.map serializeHex = t.pubkeys.map serializeHex := by
    by_cases h : t.pubkeys = []
    · rw [if_neg (by simp [h])]
      exact ⟨[], a2, rfl, by rw [h2], by rw [h]⟩
    · obtain ⟨ks, hap, hmap⟩ := applyTag_pubkeys parsePubKey serializeHex a2
        t.pubkeys h (fun k hk2 => hk k (Or.inl hk2))
      rw [if_pos h, foldlM_single, hap]
      exact ⟨ks, _, rfl, by rw [h2], hmap⟩
  obtain ⟨ksp, a3, e3, h3, hmp⟩ := seg3
  rw [e3, exceptBind_ok, List.foldlM_append]
  -- locktime segment
  have seg4 : ∃ a4 : P2PKTags PubKey,
      List.foldlM (p2pkApplyTag parsePubKey) a3
        (if t.locktime > 0 then [["locktime", goItoa t.locktime]] else [])
        = .ok a4 ∧
      a4 = { sigflag := t.sigflag, nsigs := t.nsigs, pubkeys := ksp,
             locktime := t.locktime } := by
    by_cases h : t.locktime > 0
    · rw [if_pos h, foldlM_single,
        applyTag_locktime parsePubKey a3 t.locktime h hl1]
      exact ⟨_, rfl, by rw [h3]⟩
    · rw [if_neg h]
      have hz : t.locktime = 0 := by omega
      exact ⟨a3, rfl, by rw [h3, hz]⟩
  obtain ⟨a4, e4, h4⟩ := seg4
  rw [e4, exceptBind_ok]
  -- refund segment
  by_cases h : t.refund = []
  · rw [if_neg (by simp [h])]
    exact ⟨a4, rfl, by rw [h4], by rw [h4], by rw [h4],
      by rw [h4]; exact hmp, by rw [h4, h]⟩
  · obtain ⟨ks, hap, hmap⟩ := applyTag_refund parsePubKey serializeHex a4
      t.refund h (fun k hk2 => hk k (Or.inr hk2))
    rw [if_pos h, foldlM_single, hap]
    refine ⟨_, rfl, by rw [h4], by rw [h4], by rw [h4], ?_, hmap⟩
    show ({ a4 with refund := ks }).pubkeys.map serializeHex = _
    rw [h4]
    exact hmp

/-- Witness for C9 at concrete tags over `PubKey := Nat`. -/
theorem c9_serialize_parse_roundtrip_witness :
    ∃ t' : P2PKTags Nat,
      ParseP2PKTags (fun s => if s = "4b" then some 3 else none)
        (SerializeP2PKTags (fun _ => "4b")
          { sigflag := "SIG_ALL", nsigs := 2, pubkeys := [3],
            locktime := 77, refund := [] })
        = .ok t' ∧
      t'.sigflag = "SIG_ALL" ∧ t'.nsigs = 2 ∧ t'.locktime = 77 ∧
      t'.pubkeys.map (fun _ => "4b") = ["4b"] ∧
      t'.refund.map (fun _ => "4b") = [] := by
  have h := c9_serialize_parse_roundtrip
    (fun s => if s = "4b" then some 3 else none) (fun _ => "4b")
    { sigflag := "SIG_ALL", nsigs := 2, pubkeys := [3],
      locktime := 77, refund := [] }
    (Or.inr rfl) (by norm_num) (by norm_num) (by norm_num) (by norm_num)
    (by intro k hk2
        rcases hk2 with hk2 | hk2
        · simp only [List.mem_singleton] at hk2
          exact ⟨3, by simp, rfl⟩
        · simp at hk2)
  exact h

end Claims9

end Nut11

/-! ## The keyset rotation path of `getActiveKeyset` (claim C7) -/

namespace WalletReg

section Rotation

variable {Keys : Type}
variable (DeriveKeysetId : Keys → String)
variable (fetch : String → Except GoError (KeysetKeysResponse Keys))

/-- Invariants carried through the rotation loop: a well-keyed db, the
demoted old keyset staying in the db and in the shared inactive map, the
`w.mints` entry tracking the local mint copy, inactive values staying
inactive, and — once a qualifying response keyset exists — the local active
keyset being an installed qualifying keyset. -/
theorem rotateLoop_spec (mintURL unit oldId : String)
    (akI : WalletKeyset Keys) (ks : List KeysetInfo) (st : RotState Keys)
    (hdb : ∀ p ∈ st.db, p.2.id = p.1)
    (hold : ∀ k ∈ ks, qualKeyset unit k → k.id ≠ oldId)
    (ha : alLookup oldId st.db = some akI)
    (hb : alLookup oldId st.mintLocal.inactiveKeysets = some akI)
    (hc : alLookup mintURL st.mints = some st.mintLocal)
    (hd : ∀ p ∈ st.mintLocal.inactiveKeysets, p.2.active = false)
    (hsucc : ∀ k ∈ ks, qualKeyset unit k →
      ∃ keys, GetKeysetKeys DeriveKeysetId (fetch k.id) k.id = .ok keys) :
    ∃ st', rotateLoop DeriveKeysetId fetch mintURL unit ks st = (st', none) ∧
      (∀ p ∈ st'.db, p.2.id = p.1) ∧
      alLookup oldId st'.db = some akI ∧
      alLookup oldId st'.mintLocal.inactiveKeysets = some akI ∧
      alLookup mintURL st'.mints = some st'.mintLocal ∧
      (∀ p ∈ st'.mintLocal.inactiveKeysets, p.2.active = false) ∧
      ((∀ k ∈ ks, ¬ qualKeyset unit k) → st' = st) ∧
      ((∃ k ∈ ks, qualKeyset unit k) →
        st'.activeKeyset.active = true ∧
        st'.mintLocal.activeKeyset = st'.activeKeyset ∧
        ∃ k ∈ ks, qualKeyset unit k ∧ st'.activeKeyset.id = k.id) := by
  induction ks generalizing st with
  | nil =>
    refine ⟨st, rfl, hdb, ha, hb, hc, hd, fun _ => rfl, ?_⟩
    rintro ⟨k, hk, _⟩
    cases hk
  | cons k rest ih =>
    rw [rotateLoop]
    by_cases hq : qualKeyset unit k
    · have hq' : goHexDecodable k.id = true ∧ k.active = true ∧ k.unit = unit := hq
      rw [if_pos hq']
      have hkid : k.id ≠ oldId := hold k (List.mem_cons_self k rest) hq
      rcases hstored : alLookup k.id st.db with _ | stored
      · -- no stored copy: fetch and verify the keys
        obtain ⟨keys, hgk⟩ := hsucc k (List.mem_cons_self k rest) hq
        dsimp only
        rw [hgk]
        dsimp only
        set nk : WalletKeyset Keys :=
          { id := k.id, mintURL := mintURL, unit := k.unit, active := true,
            inputFeePpk := k.inputFeePpk, publicKeys := some keys } with hnk
        set mint1 : WalletMint Keys :=
          { st.mintLocal with activeKeyset := nk } with hmint1
        set st1 : RotState Keys :=
          { activeKeyset := nk, mintLocal := mint1,
            mints := alInsert mintURL mint1 st.mints,
            db := dbSave nk st.db } with hst1
        obtain ⟨st', heq, p1, p2, p3, p4, p5, p6, p7⟩ := ih st1
          (alInsert_forall _ _ _ _ hdb rfl)
          (fun a ha2 => hold a (List.mem_cons_of_mem k ha2))
          (by rw [hst1]; exact (alLookup_insert_ne oldId nk.id nk st.db
            (fun h => hkid h.symm)).trans ha)
          (by rw [hst1, hmint1]; exact hb)
          (by rw [hst1]; exact alLookup_insert_self mintURL mint1 st.mints)
          (by rw [hst1, hmint1]; exact hd)
          (fun a ha2 => hsucc a (List.mem_cons_of_mem k ha2))
        refine ⟨st', heq, p1, p2, p3, p4, p5,
          fun hall => absurd hq (hall k (List.mem_cons_self k rest)), fun _ => ?_⟩
        by_cases hrest : ∃ a ∈ rest, qualKeyset unit a
        · obtain ⟨hact, hmla, a, haa, hqa, hidq⟩ := p7 hrest
          exact ⟨hact, hmla, a, List.mem_cons_of_mem k haa, hqa, hidq⟩
        · push_neg at hrest
          have hst' : st' = st1 := p6 (fun a ha2 hqa => hrest a ha2 hqa)
          rw [hst']
          exact ⟨rfl, rfl, k, List.mem_cons_self k rest, hq, rfl⟩
      · -- stored copy reused
        have hsid : stored.id = k.id := hdb _ (alLookup_some_mem _ _ _ hstored)
        dsimp only
        set stored' : WalletKeyset Keys :=
          { stored with active := true, inputFeePpk := k.inputFeePpk }
          with hstored'
        set mint1 : WalletMint Keys :=
          { activeKeyset := stored',
            inactiveKeysets := alErase stored'.id st.mintLocal.inactiveKeysets }
          with hmint1
        set st1 : RotState Keys :=
          { activeKeyset := stored', mintLocal := mint1,
            mints := alInsert mintURL mint1 st.mints,
            db := dbSave stored' st.db } with hst1
        have hsid' : stored'.id = k.id := hsid
        obtain ⟨st', heq, p1, p2, p3, p4, p5, p6, p7⟩ := ih st1
          (alInsert_forall _ _ _ _ hdb rfl)
          (fun a ha2 => hold a (List.mem_cons_of_mem k ha2))
          (by rw [hst1]
              exact (alLookup_insert_ne oldId stored'.id stored' st.db
                (fun h => hkid (hsid' ▸ h.symm))).trans ha)
          (by rw [hst1, hmint1]
              exact (alLookup_erase_ne oldId stored'.id _
                (fun h => hkid (hsid' ▸ h.symm))).trans hb)
          (by rw [hst1]; exact alLookup_insert_self mintURL mint1 st.mints)
          (by rw [hst1, hmint1]; exact alErase_forall _ _ _ hd)
          (fun a ha2 => hsucc a (List.mem_cons_of_mem k ha2))
        refine ⟨st', heq, p1, p2, p3, p4, p5,
          fun hall => absurd hq (hall k (List.mem_cons_self k rest)), fun _ => ?_⟩
        by_cases hrest : ∃ a ∈ rest, qualKeyset unit a
        · obtain ⟨hact, hmla, a, haa, hqa, hidq⟩ := p7 hrest
          exact ⟨hact, hmla, a, List.mem_cons_of_mem k haa, hqa, hidq⟩
        · push_neg at hrest
          have hst' : st' = st1 := p6 (fun a ha2 hqa => hrest a ha2 hqa)
          rw [hst']
          exact ⟨rfl, rfl, k, List.mem_cons_self k rest, hq, hsid'⟩
    · have hq' : ¬ (goHexDecodable k.id = true ∧ k.active = true ∧
          k.unit = unit) := hq
      rw [if_neg hq']
      obtain ⟨st', heq, p1, p2, p3, p4, p5, p6, p7⟩ := ih st hdb
        (fun a ha2 => hold a (List.mem_cons_of_mem k ha2)) ha hb hc hd
        (fun a ha2 => hsucc a (List.mem_cons_of_mem k ha2))
      refine ⟨st', heq, p1, p2, p3, p4, p5, ?_, ?_⟩
      · intro hall
        exact p6 (fun a ha2 => hall a (List.mem_cons_of_mem k ha2))
      · rintro ⟨k0, hk0, hq0⟩
        rcases List.mem_cons.mp hk0 with rfl | hk0'
        · exact absurd hq0 hq
        · obtain ⟨hact, hmla, a, haa, hqa, hidq⟩ := p7 ⟨k0, hk0', hq0⟩
          exact ⟨hact, hmla, a, List.mem_cons_of_mem k haa, hqa, hidq⟩

end Rotation

section Claims7

variable {Keys : Type}

/-- Claim C7: on a known mint with a fresh keyset list. Rotation case: when
the cached active id no longer appears active, the old keyset is persisted
inactive in the db and kept (inactive) in the mint's inactive map, and —
given that some listed keyset is active for the wallet's unit with a hex id
and that keys for qualifying ids are obtainable (stored copy or id-verified
fetch) — the call succeeds and installs exactly one new active keyset as
the mint's single `activeKeyset`, with a qualifying id different from the
old one, while every inactive-map entry stays inactive, so the wallet view
keeps at most one active keyset per (mint, unit).  Unchanged case: when the
cached id is still active, a changed `input_fee_ppk` is the only update
(persisted), and with an unchanged fee the state is returned untouched. -/
theorem c7_keyset_rotation (DeriveKeysetId : Keys → String)
    (fetch : String → Except GoError (KeysetKeysResponse Keys))
    (w : WalletState Keys) (mintURL : String) (mint : WalletMint Keys)
    (keysets : List KeysetInfo)
    (hknown : alLookup mintURL w.mints = some mint)
    (hdbw : ∀ p ∈ w.db, p.2.id = p.1)
    (hinact : ∀ p ∈ mint.inactiveKeysets, p.2.active = false) :
    (keysets.find? (fun k => k.active && k.id == mint.activeKeyset.id) = none →
      (∀ k ∈ keysets, qualKeyset w.unit k →
        ∃ keys, GetKeysetKeys DeriveKeysetId (fetch k.id) k.id = .ok keys) →
      (∃ k ∈ keysets, qualKeyset w.unit k) →
      ∃ w' ak mint',
        getActiveKeyset DeriveKeysetId fetch w mintURL (.ok keysets)
          = (w', .ok ak) ∧
        alLookup mintURL w'.mints = some mint' ∧
        mint'.activeKeyset = ak ∧
        ak.active = true ∧
        (∃ k ∈ keysets, qualKeyset w.unit k ∧ ak.id = k.id) ∧
        ak.id ≠ mint.activeKeyset.id ∧
        alLookup mint.activeKeyset.id w'.db
          = some { mint.activeKeyset with active := false } ∧
        alLookup mint.activeKeyset.id mint'.inactiveKeysets
          = some { mint.activeKeyset with active := false } ∧
        (∀ p ∈ mint'.inactiveKeysets, p.2.active = false)) ∧
    (∀ entry,
      keysets.find? (fun k => k.active && k.id == mint.activeKeyset.id)
        = some entry →
      (entry.inputFeePpk = mint.activeKeyset.inputFeePpk →
        getActiveKeyset DeriveKeysetId fetch w mintURL (.ok keysets)
          = (w, .ok mint.activeKeyset)) ∧
      (entry.inputFeePpk ≠ mint.activeKeyset.inputFeePpk →
        getActiveKeyset DeriveKeysetId fetch w mintURL (.ok keysets)
          = ({ w with
                db := dbSave
                  { mint.activeKeyset with inputFeePpk := entry.inputFeePpk }
                  w.db
                mints := alInsert mintURL
                  { mint with activeKeyset :=
                    { mint.activeKeyset with
                        inputFeePpk := entry.inputFeePpk } }
                  w.mints },
             .ok { mint.activeKeyset with
                     inputFeePpk := entry.inputFeePpk }))) := by
  constructor
  · intro hfind hsucc hex
    have hold : ∀ k ∈ keysets, qualKeyset w.unit k →
        k.id ≠ mint.activeKeyset.id := by
      intro k hk hq hid
      have hnp := List.find?_eq_none.mp hfind k hk
      rw [hq.2.1, hid] at hnp
      simp at hnp
    unfold getActiveKeyset
    rw [hknown]
    dsimp only
    rw [hfind]
    dsimp only
    obtain ⟨st', heq, p1, p2, p3, p4, p5, p6, p7⟩ := rotateLoop_spec
      DeriveKeysetId fetch mintURL w.unit mint.activeKeyset.id
      { mint.activeKeyset with active := false } keysets
      { activeKeyset := { mint.activeKeyset with active := false }
        mintLocal := { mint with
          inactiveKeysets :=
            alInsert mint.activeKeyset.id
              { mint.activeKeyset with active := false } mint.inactiveKeysets }
        mints := alInsert mintURL
          { mint with
            inactiveKeysets :=
              alInsert mint.activeKeyset.id
                { mint.activeKeyset with active := false } mint.inactiveKeysets }
          w.mints
        db := dbSave { mint.activeKeyset with active := false } w.db }
      (alInsert_forall _ _ _ _ hdbw rfl)
      hold
      (alLookup_insert_self _ _ _)
      (alLookup_insert_self _ _ _)
      (alLookup_insert_self _ _ _)
      (alInsert_forall _ _ _ _ hinact rfl)
      hsucc
    rw [heq]
    dsimp only
    obtain ⟨hact, hmla, k, hk, hqk, hid⟩ := p7 hex
    refine ⟨{ w with mints := st'.mints, db := st'.db }, st'.activeKeyset,
      st'.mintLocal, rfl, p4, hmla, hact, ⟨k, hk, hqk, hid⟩, ?_, p2, p3, p5⟩
    rw [hid]
    exact hold k hk hqk
  · intro entry hfind
    unfold getActiveKeyset
    rw [hknown]
    dsimp only
    rw [hfind]
    dsimp only
    constructor
    · intro hfee
      rw [if_neg (by simp [hfee])]
    · intro hfee
      rw [if_pos hfee]

/-- Witness for C7: a concrete rotation from cached keyset `00aa` to the
new active keyset `00bb`, fetched and id-verified. -/
theorem c7_keyset_rotation_witness :
    ∃ (w' : WalletState Nat) (ak : WalletKeyset Nat) (mint' : WalletMint Nat),
      getActiveKeyset (fun _ : Nat => "00bb")
        (fun s => .ok { id := s, keys := 9 })
        { unit := "sat",
          mints := [("m",
            { activeKeyset :=
                { id := "00aa", mintURL := "m", unit := "sat", active := true,
                  inputFeePpk := 1, publicKeys := some 7 },
              inactiveKeysets := [] })],
          db := [("00aa",
            { id := "00aa", mintURL := "m", unit := "sat", active := true,
              inputFeePpk := 1, publicKeys := some 7 })] }
        "m"
        (.ok [{ id := "00bb", unit := "sat", active := true, inputFeePpk := 2 }])
        = (w', .ok ak) ∧
      alLookup "m" w'.mints = some mint' ∧
      mint'.activeKeyset = ak ∧
      ak.active = true ∧
      ak.id = "00bb" ∧
      alLookup "00aa" w'.db
        = some { id := "00aa", mintURL := "m", unit := "sat", active := false,
                 inputFeePpk := 1, publicKeys := some 7 } ∧
      alLookup "00aa" mint'.inactiveKeysets
        = some { id := "00aa", mintURL := "m", unit := "sat", active := false,
                 inputFeePpk := 1, publicKeys := some 7 } := by
  have h := (c7_keyset_rotation (fun _ : Nat => "00bb")
    (fun s => .ok { id := s, keys := 9 })
    { unit := "sat",
      mints := [("m",
        { activeKeyset :=
            { id := "00aa", mintURL := "m", unit := "sat", active := true,
              inputFeePpk := 1, publicKeys := some 7 },
          inactiveKeysets := [] })],
      db := [("00aa",
        { id := "00aa", mintURL := "m", unit := "sat", active := true,
          inputFeePpk := 1, publicKeys := some 7 })] }
    "m"
    { activeKeyset :=
        { id := "00aa", mintURL := "m", unit := "sat", active := true,
          inputFeePpk := 1, publicKeys := some 7 },
      inactiveKeysets := [] }
    [{ id := "00bb", unit := "sat", active := true, inputFeePpk := 2 }]
    rfl
    (by rintro p hp
        rcases List.mem_singleton.mp hp with rfl
        rfl)
    (by intro p hp; cases hp)).1
    rfl
    (by rintro k hk _
        rcases List.mem_singleton.mp hk with rfl
        exact ⟨9, rfl⟩)
    ⟨_, List.mem_singleton.mpr rfl, by decide, rfl, rfl⟩
  obtain ⟨w', ak, mint', heq, hm, hma, hact, ⟨k, hk, _, hid⟩, _, hdb1,
    hinact1, _⟩ := h
  rcases List.mem_singleton.mp hk with rfl
  exact ⟨w', ak, mint', heq, hm, hma, hact, hid, hdb1, hinact1⟩

end Claims7

end WalletReg

end Gonuts
